import Mathlib

/-!
Shallow embedding of the excelio row-mapping library (src/excelio.go).

Modelling conventions:
* Go strings are lists of characters (`GoStr`); Go `int`/`int64` are `ℤ`;
  `float64` values are exact rationals `ℚ`; `time.Time` instants are whole
  seconds since the Unix epoch in UTC (`ℤ`).
* Fallible Go functions return `Option`/`Except`.
* External collaborators (excelize document access, the go-playground
  validator, Go standard-library parsing routines) are modelled by explicit
  Lean functions; each such model carries a doc comment stating the modelled
  behaviour and its scope.
-/

namespace Excelio

/-- Go strings, modelled as lists of characters. -/
abbrev GoStr := List Char

/-- The error values produced by the library (each constructor corresponds to
one `fmt.Errorf`/`strconv` error site in src/excelio.go; payloads keep the
data interpolated into the message). -/
inductive GoErr where
  | requiredColumnOutOfRange
  | requiredValueEmpty
  | numSyntax (input : GoStr)
  | invalidBool (raw : GoStr)
  | emptyTime
  | invalidExcelSerial
  | cannotParseTime (raw : GoStr)
  | unsupportedKind (raw : GoStr)
  | columnFailed (display tag msg : GoStr)
  | structValidation (msg : GoStr)
  | readRow (msg : GoStr)
  deriving DecidableEq

instance {ε α : Type} [DecidableEq ε] [DecidableEq α] : DecidableEq (Except ε α)
  | .ok a, .ok b =>
    if h : a = b then .isTrue (by rw [h]) else .isFalse (by simp [h])
  | .ok _, .error _ => .isFalse (by simp)
  | .error _, .ok _ => .isFalse (by simp)
  | .error a, .error b =>
    if h : a = b then .isTrue (by rw [h]) else .isFalse (by simp [h])

/-- Modelled from the Go standard library: `unicode.IsSpace` restricted to the
whitespace characters that occur in cell text (ASCII whitespace plus NEL and
NBSP, the set Go's `strings.TrimSpace` fast-path handles). -/
def isGoSpace (c : Char) : Bool :=
  c = ' ' || c = '\t' || c = '\n' || c = '\x0b' || c = '\x0c' || c = '\r' ||
    c = '\u0085' || c = '\u00A0'

/-- Modelled from the Go standard library: `strings.TrimSpace`. -/
def trimSpace (s : GoStr) : GoStr :=
  ((s.dropWhile isGoSpace).reverse.dropWhile isGoSpace).reverse

/-- Modelled from the Go standard library: `strings.ToUpper` on one character
(ASCII case mapping; cell text and tags in this library are ASCII). -/
def toUpperChar (c : Char) : Char :=
  if 97 ≤ c.toNat ∧ c.toNat ≤ 122 then Char.ofNat (c.toNat - 32) else c

/-- Modelled from the Go standard library: `strings.ToLower` on one character
(ASCII case mapping). -/
def toLowerChar (c : Char) : Char :=
  if 65 ≤ c.toNat ∧ c.toNat ≤ 90 then Char.ofNat (c.toNat + 32) else c

/-- Modelled from the Go standard library: `strings.ToUpper`. -/
def toUpper (s : GoStr) : GoStr := s.map toUpperChar

/-- Modelled from the Go standard library: `strings.ToLower`. -/
def toLower (s : GoStr) : GoStr := s.map toLowerChar

/-- ASCII decimal digit test. -/
def isDigit (c : Char) : Bool := 48 ≤ c.toNat ∧ c.toNat ≤ 57

/-- ASCII letter test (both cases). -/
def isAsciiLetter (c : Char) : Bool :=
  (65 ≤ c.toNat ∧ c.toNat ≤ 90) || (97 ≤ c.toNat ∧ c.toNat ≤ 122)

/-- Value of a string of decimal digits (most significant first). -/
def digitsVal (l : GoStr) : ℕ := l.foldl (fun a c => a * 10 + (c.toNat - 48)) 0

/-- Modelled from the Go standard library: `strconv.Atoi`
(= `strconv.ParseInt(s, 10, 0)` on 64-bit): optional sign, one or more
decimal digits, nothing else; values outside int64 range fail. -/
def goAtoi (s : GoStr) : Option ℤ :=
  let p : ℤ × GoStr :=
    match s with
    | '+' :: r => (1, r)
    | '-' :: r => (-1, r)
    | r => (1, r)
  if p.2 ≠ [] ∧ p.2.all isDigit then
    let v : ℤ := p.1 * digitsVal p.2
    if -(2 ^ 63) ≤ v ∧ v < 2 ^ 63 then some v else none
  else none

/-- Modelled from the Go standard library: `strconv.ParseInt(s, 10, 64)`. -/
def goParseInt (s : GoStr) : Option ℤ := goAtoi s

/-- Modelled from the Go standard library: `strconv.ParseUint(s, 10, 64)`:
decimal digits only (no sign), values outside uint64 range fail. -/
def goParseUint (s : GoStr) : Option ℕ :=
  if s ≠ [] ∧ s.all isDigit then
    let v := digitsVal s
    if v < 2 ^ 64 then some v else none
  else none

/-- Exponent/mantissa assembly for `goParseFloat`. -/
def finishFloat (sgn : ℚ) (ip fp : GoStr) (rest : GoStr) : Option ℚ :=
  let mant : ℚ := (digitsVal ip : ℚ) + (digitsVal fp : ℚ) / ((10 : ℚ) ^ fp.length)
  match rest with
  | [] => some (sgn * mant)
  | e :: r =>
    if e = 'e' ∨ e = 'E' then
      let q : Bool × GoStr :=
        match r with
        | '+' :: rr => (true, rr)
        | '-' :: rr => (false, rr)
        | rr => (true, rr)
      if q.2 ≠ [] ∧ q.2.all isDigit then
        let ev := digitsVal q.2
        some (sgn * mant * (if q.1 then (10 : ℚ) ^ ev else 1 / (10 : ℚ) ^ ev))
      else none
    else none

/-- Modelled from the Go standard library: `strconv.ParseFloat(s, 64)` on
finite decimal inputs, read as an exact rational: optional sign, decimal
digits with optional fractional part (at least one digit overall), optional
decimal exponent.  Binary rounding, hexadecimal floats, digit-group
underscores and the textual `inf`/`nan` forms are outside the model's scope. -/
def goParseFloat (s : GoStr) : Option ℚ :=
  let p : ℚ × GoStr :=
    match s with
    | '+' :: r => (1, r)
    | '-' :: r => (-1, r)
    | r => (1, r)
  let ip := p.2.takeWhile isDigit
  let r1 := p.2.dropWhile isDigit
  match r1 with
  | '.' :: r =>
    let fp := r.takeWhile isDigit
    let r2 := r.dropWhile isDigit
    if ip = [] ∧ fp = [] then none else finishFloat p.1 ip fp r2
  | r2 =>
    if ip = [] then none else finishFloat p.1 ip [] r2

/-! ### Column helpers (src/excelio.go `colLetter`, `colIndexFromLetter`) -/

/-- Loop body of `colLetter`: writes `n` in bijective base 26 over `A`‥`Z`
(`colLetterAux (n+1)` prepends digits exactly as the Go loop does). -/
def colLetterAux : ℕ → GoStr
  | 0 => []
  | n + 1 => colLetterAux (n / 26) ++ [Char.ofNat (65 + n % 26)]
termination_by n => n
decreasing_by exact Nat.lt_succ_of_le (Nat.div_le_self n 26)

/-- `colLetter` converts a 0-based column index to an Excel column letter
("A", "B", ...); non-positive `idx + 1` yields the empty string. -/
def colLetter (idx : ℤ) : GoStr :=
  if idx + 1 ≤ 0 then [] else colLetterAux (idx + 1).toNat

/-- Loop body of `colIndexFromLetter`: folds letters into a 1-based value,
failing on any character outside `A`‥`Z`. -/
def colAux : GoStr → ℕ → Option ℕ
  | [], n => some n
  | c :: cs, n =>
    if 65 ≤ c.toNat ∧ c.toNat ≤ 90 then colAux cs (n * 26 + (c.toNat - 64))
    else none

/-- `colIndexFromLetter` converts a column letter ("A", "B", ...) to a
0-based index; the empty (post-trim) string and non-letter characters give
`-1`. -/
def colIndexFromLetter (s0 : GoStr) : ℤ :=
  let s := trimSpace (toUpper s0)
  if s = [] then -1
  else
    match colAux s 0 with
    | some n => (n : ℤ) - 1
    | none => -1

/-! ### Type metadata and tags (src/excelio.go `fieldMeta`, `typeMeta`,
`splitAndTrim`, `getTypeMeta`, `FindFieldByName`) -/

/-- The reflect kinds the converter distinguishes (`convertAndSet`): strings,
signed/unsigned integers, floats, booleans, `time.Time`, and everything else
(which is unsupported). -/
inductive GoKind where
  | kString
  | kInt
  | kUint
  | kFloat
  | kBool
  | kTime
  | kOther
  deriving DecidableEq

/-- A converted field value (the data `convertAndSet` writes into a struct
field). -/
inductive FieldVal where
  | fvStr (s : GoStr)
  | fvInt (i : ℤ)
  | fvUint (u : ℕ)
  | fvFloat (q : ℚ)
  | fvBool (b : Bool)
  | fvTime (t : ℤ)
  | fvOther
  deriving DecidableEq

/-- One struct-field slot of a record: `none` is a nil pointer field, `some v`
a set (or zero-initialised non-pointer) value. -/
abbrev RecVal := Option FieldVal

/-- A mapped record: the field slots in `typeMeta.Fields` order. -/
abbrev Rec := List RecVal

/-- `fieldMeta` stores mapping info for a single struct field.  `lastColIndex`
is Go's mutable member (zero-initialised at build time); row mapping
produces an updated copy rather than mutating in place. -/
structure FieldMeta where
  fieldName : GoStr
  columnNames : List GoStr
  colIndexTag : ℤ
  colLetterTag : GoStr
  required : Bool
  timeFormat : GoStr
  isPtr : Bool
  kind : GoKind
  lastColIndex : ℤ
  deriving DecidableEq

/-- `typeMeta` stores metadata for a struct type.  The `HeaderToField` and
`FieldByName` indices of the Go struct are derived views of `fields` (struct
field names are unique within a Go type) and are modelled by lookups on the
list. -/
structure TypeMeta where
  fields : List FieldMeta
  deriving DecidableEq

/-- The reflection data `getTypeMeta` reads from one struct field: name,
exported-ness, the five tags, and the field's (pointer-unwrapped) kind. -/
structure GoStructField where
  name : GoStr
  exported : Bool
  excelTag : GoStr
  colTag : GoStr
  excelColTag : GoStr
  requiredTag : GoStr
  fmtTag : GoStr
  isPtr : Bool
  kind : GoKind
  deriving DecidableEq

/-- Modelled from the Go standard library: `strings.Split(s, ",")` (splits on
every comma; the empty string yields one empty part). -/
def splitOnComma : GoStr → List GoStr
  | [] => [[]]
  | c :: r =>
    if c = ',' then [] :: splitOnComma r
    else
      match splitOnComma r with
      | h :: t => (c :: h) :: t
      | [] => [[c]]

/-- `splitAndTrim` splits a comma-separated string and trims each part,
dropping empty parts. -/
def splitAndTrim (s : GoStr) : List GoStr :=
  if s = [] then []
  else ((splitOnComma s).map trimSpace).filter (fun p => p ≠ [])

/-- Per-field body of `getTypeMeta`: skips unexported fields and fields with
no mapping tag, otherwise builds the `fieldMeta` from the tags. -/
def buildFieldMeta (f : GoStructField) : Option FieldMeta :=
  if ¬ f.exported then none
  else if f.excelTag = [] ∧ f.colTag = [] ∧ f.excelColTag = [] then none
  else
    some
      { fieldName := f.name
        columnNames := splitAndTrim f.excelTag
        colIndexTag :=
          match goAtoi (trimSpace f.colTag) with
          | some n => if n > 0 then n - 1 else -1
          | none => -1
        colLetterTag := if f.excelColTag ≠ [] then toUpper (trimSpace f.excelColTag) else []
        required := f.requiredTag = ['1'] ∨ toLower f.requiredTag = "true".data
        timeFormat := f.fmtTag
        isPtr := f.isPtr
        kind := f.kind
        lastColIndex := 0 }

/-- `getTypeMeta` builds metadata for a struct type from its fields (the
process-wide cache and the not-a-struct error are outside the embedded core:
they do not change the metadata computed for a given struct shape). -/
def getTypeMeta (fs : List GoStructField) : TypeMeta :=
  ⟨fs.filterMap buildFieldMeta⟩

/-- `FindFieldByName` returns the fieldMeta for a given struct field name
(struct field names are unique, so first match equals map lookup). -/
def findFieldByName (m : TypeMeta) (name : GoStr) : Option FieldMeta :=
  m.fields.find? (fun fm => fm.fieldName == name)

/-! ### Date and time (src/excelio.go `excelSerialToTime`, `parseTime`) -/

/-- Days from the civil epoch 1970-01-01 to year/month/day (proleptic
Gregorian, Howard Hinnant's `days_from_civil`); models the day arithmetic of
Go's `time.Date`.  Used with years in `0‥9999` as produced by the parsers. -/
def daysFromCivil (y : ℤ) (m d : ℕ) : ℤ :=
  let y' : ℤ := if m ≤ 2 then y - 1 else y
  let era : ℤ := (if 0 ≤ y' then y' else y' - 399) / 400
  let yoe : ℤ := y' - era * 400
  let mp : ℕ := (m + 9) % 12
  let doy : ℕ := (153 * mp + 2) / 5 + d - 1
  let doe : ℤ := yoe * 365 + yoe / 4 - yoe / 100 + doy
  era * 146097 + doe - 719468

/-- Gregorian leap-year test. -/
def isLeapYear (y : ℤ) : Bool := (y % 4 = 0 ∧ y % 100 ≠ 0) ∨ y % 400 = 0

/-- Number of days in a month. -/
def daysInMonth (y : ℤ) (m : ℕ) : ℕ :=
  if m = 2 then (if isLeapYear y then 29 else 28)
  else if m = 4 ∨ m = 6 ∨ m = 9 ∨ m = 11 then 30
  else 31

/-- The six clock fields a layout can fill; absent fields keep Go's parse
defaults (year 0, January 1, midnight). -/
structure TP where
  year : ℤ := 0
  month : ℕ := 1
  day : ℕ := 1
  hour : ℕ := 0
  minute : ℕ := 0
  second : ℕ := 0
  deriving DecidableEq

/-- Reads exactly two decimal digits. -/
def take2 (v : GoStr) : Option (ℕ × GoStr) :=
  match v with
  | a :: b :: r =>
    if isDigit a ∧ isDigit b then some ((a.toNat - 48) * 10 + (b.toNat - 48), r)
    else none
  | _ => none

/-- Reads exactly four decimal digits. -/
def take4 (v : GoStr) : Option (ℕ × GoStr) :=
  match v with
  | a :: b :: c :: d :: r =>
    if isDigit a ∧ isDigit b ∧ isDigit c ∧ isDigit d then
      some (((a.toNat - 48) * 1000 + (b.toNat - 48) * 100 + (c.toNat - 48) * 10 + (d.toNat - 48)), r)
    else none
  | _ => none

/-- Modelled from the Go standard library: the scanning loop of `time.Parse`
for the layout tokens this library's layouts use — `2006` (4-digit year),
`01`/`02`/`15`/`04`/`05` (zero-padded month/day/hour/minute/second) — with
every other layout character matched literally; trailing input is an error.
Other layout tokens (names of months, unpadded numbers, zones…) are outside
the model's scope. -/
def goTimeParseAux : GoStr → GoStr → TP → Option TP
  | [], v, tp => if v = [] then some tp else none
  | '2' :: '0' :: '0' :: '6' :: ls, v, tp =>
    (take4 v).bind fun p => goTimeParseAux ls p.2 { tp with year := (p.1 : ℤ) }
  | '0' :: '1' :: ls, v, tp =>
    (take2 v).bind fun p => goTimeParseAux ls p.2 { tp with month := p.1 }
  | '0' :: '2' :: ls, v, tp =>
    (take2 v).bind fun p => goTimeParseAux ls p.2 { tp with day := p.1 }
  | '1' :: '5' :: ls, v, tp =>
    (take2 v).bind fun p => goTimeParseAux ls p.2 { tp with hour := p.1 }
  | '0' :: '4' :: ls, v, tp =>
    (take2 v).bind fun p => goTimeParseAux ls p.2 { tp with minute := p.1 }
  | '0' :: '5' :: ls, v, tp =>
    (take2 v).bind fun p => goTimeParseAux ls p.2 { tp with second := p.1 }
  | c :: ls, v, tp =>
    match v with
    | d :: vs => if d = c then goTimeParseAux ls vs tp else none
    | [] => none

/-- Validates the parsed clock fields (as `time.Parse` does) and converts to
seconds since the Unix epoch, UTC. -/
def tpToEpoch (tp : TP) : Option ℤ :=
  if 1 ≤ tp.month ∧ tp.month ≤ 12 ∧ 1 ≤ tp.day ∧ tp.day ≤ daysInMonth tp.year tp.month ∧
      tp.hour ≤ 23 ∧ tp.minute ≤ 59 ∧ tp.second ≤ 59 then
    some (daysFromCivil tp.year tp.month tp.day * 86400 +
      (tp.hour * 3600 + tp.minute * 60 + tp.second : ℕ))
  else none

/-- Modelled from the Go standard library: `time.Parse(layout, value)` in UTC
for the supported layout tokens (see `goTimeParseAux`). -/
def goTimeParse (layout value : GoStr) : Option ℤ :=
  (goTimeParseAux layout value {}).bind tpToEpoch

/-- Consumes one expected literal character. -/
def expectChar (c : Char) : GoStr → Option GoStr
  | d :: r => if d = c then some r else none
  | [] => none

/-- Parses the RFC3339 zone suffix into an offset in seconds. -/
def rfcOffset : GoStr → Option ℤ
  | ['Z'] => some 0
  | '+' :: r => do
    let p ← take2 r
    let r1 ← expectChar ':' p.2
    let q ← take2 r1
    if q.2 = [] ∧ p.1 ≤ 23 ∧ q.1 ≤ 59 then some ((p.1 * 3600 + q.1 * 60 : ℕ) : ℤ) else none
  | '-' :: r => do
    let p ← take2 r
    let r1 ← expectChar ':' p.2
    let q ← take2 r1
    if q.2 = [] ∧ p.1 ≤ 23 ∧ q.1 ≤ 59 then some (-((p.1 * 3600 + q.1 * 60 : ℕ) : ℤ)) else none
  | _ => none

/-- Modelled from the Go standard library: `time.Parse(time.RFC3339, value)` —
`YYYY-MM-DDThh:mm:ss`, an optional fractional-seconds part (truncated to
whole seconds by this model), then `Z` or a `±hh:mm` offset. -/
def rfc3339Parse (s : GoStr) : Option ℤ := do
  let py ← take4 s
  let r ← expectChar '-' py.2
  let pmo ← take2 r
  let r ← expectChar '-' pmo.2
  let pd ← take2 r
  let r ← expectChar 'T' pd.2
  let ph ← take2 r
  let r ← expectChar ':' ph.2
  let pmi ← take2 r
  let r ← expectChar ':' pmi.2
  let pse ← take2 r
  let r :=
    match pse.2 with
    | '.' :: rr => if rr.takeWhile isDigit ≠ [] then rr.dropWhile isDigit else pse.2
    | _ => pse.2
  let off ← rfcOffset r
  let base ← tpToEpoch ⟨(py.1 : ℤ), pmo.1, pd.1, ph.1, pmi.1, pse.1⟩
  some (base - off)

/-- The fixed layout list of `parseTime` (step 3). -/
def goLayouts : List GoStr :=
  ["2006-01-02".data, "02/01/2006".data, "02-01-2006".data, "2006/01/02".data,
    "02/01/2006 15:04".data, "2006-01-02 15:04".data, "02-01-2006 15:04".data]

/-- `excelSerialToTime` converts an Excel serial date (1900 date system,
"1899-12-30" base) to an instant; serials ≤ 0 are rejected.  Go truncates
`serial` and the rounded fraction with `int64(·)`; both arguments are
non-negative there, so truncation is `floor`. -/
def excelSerialToTime (serial : ℚ) : Except GoErr ℤ :=
  if serial ≤ 0 then .error .invalidExcelSerial
  else
    let days : ℤ := serial.floor
    let frac : ℚ := serial - (days : ℚ)
    let sec : ℤ := (frac * 86400 + 1 / 2).floor
    .ok ((daysFromCivil 1899 12 30 + days) * 86400 + sec)

/-- The custom-format step of `parseTime` (step 1): only attempted when a
field meta with a non-empty `fmt` tag is present. -/
def customParse (fm : Option FieldMeta) (s : GoStr) : Option ℤ :=
  match fm with
  | some m => if m.timeFormat ≠ [] then goTimeParse m.timeFormat s else none
  | none => none

/-- `parseTime` attempts to parse a time value from the cell text, trying in
this order: 1. custom format from `fieldMeta.TimeFormat`; 2. RFC3339;
3. the common layouts of `goLayouts`; 4. Excel serial number. -/
def parseTime (raw : GoStr) (fm : Option FieldMeta) : Except GoErr ℤ :=
  let s := trimSpace raw
  if s = [] then .error .emptyTime
  else
    match customParse fm s with
    | some t => .ok t
    | none =>
      match rfc3339Parse s with
      | some t => .ok t
      | none =>
        match goLayouts.findSome? (fun layout => goTimeParse layout s) with
        | some t => .ok t
        | none =>
          match goParseFloat s with
          | some f =>
            match excelSerialToTime f with
            | .ok t => .ok t
            | .error _ => .error (.cannotParseTime raw)
          | none => .error (.cannotParseTime raw)

/-! ### Type conversion (src/excelio.go `parseBool`, `convertAndSet`,
`setFieldValue`) -/

/-- `parseBool` converts various common boolean strings into bool. -/
def parseBool (raw : GoStr) : Except GoErr Bool :=
  let s := trimSpace (toLower raw)
  if s = ['1'] ∨ s = "true".data ∨ s = ['t'] ∨ s = "yes".data ∨ s = ['y'] ∨ s = "on".data then
    .ok true
  else if s = ['0'] ∨ s = "false".data ∨ s = ['f'] ∨ s = "no".data ∨ s = ['n'] ∨ s = "off".data then
    .ok false
  else .error (.invalidBool raw)

/-- The zero value of a field of the given kind. -/
def zeroVal : GoKind → FieldVal
  | .kString => .fvStr []
  | .kInt => .fvInt 0
  | .kUint => .fvUint 0
  | .kFloat => .fvFloat 0
  | .kBool => .fvBool false
  | .kTime => .fvTime (daysFromCivil 1 1 1 * 86400)
  | .kOther => .fvOther

/-- The zero slot of a field: nil for pointer fields, the kind's zero value
otherwise. -/
def zeroRecVal (fm : FieldMeta) : RecVal :=
  if fm.isPtr then none else some (zeroVal fm.kind)

/-- The zero-valued record (`var zero T`). -/
def zeroRec (m : TypeMeta) : Rec := m.fields.map zeroRecVal

/-- `convertAndSet` performs conversion for the underlying concrete kind
(signed and unsigned integer widths are modelled at 64 bits). -/
def convertAndSet (kind : GoKind) (fm : Option FieldMeta) (raw : GoStr) : Except GoErr FieldVal :=
  let trim := trimSpace raw
  match kind with
  | .kString => .ok (.fvStr raw)
  | .kInt =>
    match goParseInt trim with
    | some i => .ok (.fvInt i)
    | none => .error (.numSyntax trim)
  | .kUint =>
    match goParseUint trim with
    | some u => .ok (.fvUint u)
    | none => .error (.numSyntax trim)
  | .kFloat =>
    match goParseFloat trim with
    | some q => .ok (.fvFloat q)
    | none => .error (.numSyntax trim)
  | .kBool => (parseBool trim).map .fvBool
  | .kTime => (parseTime raw fm).map .fvTime
  | .kOther => .error (.unsupportedKind raw)

/-- `setFieldValue` sets a field value from a raw string, handling pointer and
non-pointer types: an empty (post-trim) value leaves a pointer field nil. -/
def setFieldValue (fm : FieldMeta) (raw : GoStr) : Except GoErr RecVal :=
  if fm.isPtr then
    if trimSpace raw = [] then .ok none
    else (convertAndSet fm.kind (some fm) raw).map some
  else (convertAndSet fm.kind (some fm) raw).map some

/-! ### Row mapping (src/excelio.go `buildFieldColIndex`, `buildRowError`,
`mapRow`) -/

/-- Lookup in the lowercased-header index (`headerIndex[key]`). -/
def headerLookup (hidx : List (GoStr × ℕ)) (key : GoStr) : Option ℕ :=
  (hidx.find? (fun p => p.1 == key)).map (fun p => p.2)

/-- The header-alias loop of `buildFieldColIndex`: first alias (lowercased,
trimmed) present in the header index wins. -/
def headerAliasLookup (hidx : List (GoStr × ℕ)) (names : List GoStr) : Option ℤ :=
  names.findSome? (fun nm => (headerLookup hidx (toLower (trimSpace nm))).map (fun i => (i : ℤ)))

/-- Per-field body of `buildFieldColIndex`: explicit `col` index, then
`excelcol` letter, then header aliases; `none` when nothing matches. -/
def resolveFieldCol (hidx : List (GoStr × ℕ)) (fm : FieldMeta) : Option ℤ :=
  if fm.colIndexTag ≥ 0 then some fm.colIndexTag
  else if fm.colLetterTag ≠ [] ∧ colIndexFromLetter fm.colLetterTag ≥ 0 then
    some (colIndexFromLetter fm.colLetterTag)
  else if fm.columnNames ≠ [] ∧ hidx ≠ [] then headerAliasLookup hidx fm.columnNames
  else none

/-- `buildFieldColIndex` resolves the final column index for each fieldMeta
(the Go `map[*fieldMeta]int` is modelled as a list parallel to
`meta.fields`, `none` marking an absent entry). -/
def buildFieldColIndex (m : TypeMeta) (hidx : List (GoStr × ℕ)) : List (Option ℤ) :=
  m.fields.map (resolveFieldCol hidx)

/-- `RowError` represents a detailed error for a specific row/column/field. -/
structure RowError where
  excelRowIndex : ℤ
  logicalIndex : ℤ
  colIndex : ℤ
  colLetter : GoStr
  field : GoStr
  column : GoStr
  value : GoStr
  err : GoErr
  deriving DecidableEq

/-- `buildRowError` creates a RowError populated with row/column
information. -/
def buildRowError (rowIdx logicalIdx : ℤ) (ofm : Option FieldMeta) (colIdx : ℤ)
    (hm : Option (List (ℤ × GoStr))) (cols : List GoStr) (e : GoErr) : RowError :=
  let raw := if 0 ≤ colIdx ∧ colIdx < (cols.length : ℤ) then cols.getD colIdx.toNat [] else []
  let colLet := if 0 ≤ colIdx ∧ colIdx < (cols.length : ℤ) then colLetter colIdx else []
  let colName0 :=
    if 0 ≤ colIdx ∧ colIdx < (cols.length : ℤ) then
      match hm with
      | some m => (m.lookup colIdx).getD []
      | none => []
    else []
  let colName :=
    match ofm with
    | some fm => if colName0 = [] ∧ fm.columnNames ≠ [] then fm.columnNames.headD [] else colName0
    | none => colName0
  let fieldName := match ofm with | some fm => fm.fieldName | none => []
  ⟨rowIdx, logicalIdx, colIdx + 1, colLet, fieldName, colName, raw, e⟩

/-- One failure reported by the external validator collaborator:
`StructField()`, `Field()` (display name), `Tag()`, `Error()`. -/
structure FieldError where
  structField : GoStr
  fieldAlt : GoStr
  tag : GoStr
  errMsg : GoStr

/-- The outcome of a non-nil `validator.Struct` error: either a list of
per-field `validator.ValidationErrors`, or some other error value. -/
inductive ValidatorOutcome where
  | fieldErrs (l : List FieldError)
  | otherErr (msg : GoStr)

/-- Modelled from the spec: the external go-playground validator collaborator
— "run registered rules against a value, returning a sequence of (field,
rule, message) failures" — as a function from the populated record to an
optional error outcome (`none` = validation passed). -/
abbrev Validator := Rec → Option ValidatorOutcome

/-- State of the field loop of `mapRow`: the field slots written so far, the
accumulated row errors, and the `rowHasError` flag. -/
structure FieldAcc where
  vals : List RecVal
  errs : List RowError
  hasErr : Bool

/-- One iteration of the field loop of `mapRow` (the `field.CanSet()` check
always passes for the exported fields `getTypeMeta` keeps). -/
def fieldStep (rowIdx logicalIdx : ℤ) (hm : Option (List (ℤ × GoStr))) (cols : List GoStr)
    (st : FieldAcc) (p : FieldMeta × Option ℤ) : FieldAcc :=
  match p.2 with
  | none => ⟨st.vals ++ [zeroRecVal p.1], st.errs, st.hasErr⟩
  | some colIdx =>
    if colIdx < 0 ∨ (cols.length : ℤ) ≤ colIdx then
      if p.1.required then
        ⟨st.vals ++ [zeroRecVal p.1],
          st.errs ++ [buildRowError rowIdx logicalIdx (some p.1) colIdx hm cols .requiredColumnOutOfRange],
          true⟩
      else ⟨st.vals ++ [zeroRecVal p.1], st.errs, st.hasErr⟩
    else
      let raw := cols.getD colIdx.toNat []
      if trimSpace raw = [] then
        if p.1.required then
          ⟨st.vals ++ [zeroRecVal p.1],
            st.errs ++ [buildRowError rowIdx logicalIdx (some p.1) colIdx hm cols .requiredValueEmpty],
            true⟩
        else ⟨st.vals ++ [zeroRecVal p.1], st.errs, st.hasErr⟩
      else
        match setFieldValue p.1 raw with
        | .ok v => ⟨st.vals ++ [v], st.errs, st.hasErr⟩
        | .error e =>
          ⟨st.vals ++ [zeroRecVal p.1],
            st.errs ++ [buildRowError rowIdx logicalIdx (some p.1) colIdx hm cols e],
            true⟩

/-- The RowErrors produced from the validator's per-field failures: resolve
the originating field by name in the (lastColIndex-updated) metadata, use its
remembered column or `-1` for an unknown field name. -/
def valFailures (updated : TypeMeta) (rowIdx logicalIdx : ℤ)
    (hm : Option (List (ℤ × GoStr))) (cols : List GoStr) (l : List FieldError) : List RowError :=
  l.map fun fe =>
    let ofm := findFieldByName updated fe.structField
    let colIdx : ℤ := match ofm with | some fm => fm.lastColIndex | none => -1
    let displayName :=
      match ofm with
      | some fm => if fm.columnNames ≠ [] then fm.columnNames.headD [] else fe.fieldAlt
      | none => fe.fieldAlt
    buildRowError rowIdx logicalIdx ofm colIdx hm cols (.columnFailed displayName fe.tag fe.errMsg)

/-- Metadata after the field loop: each field with a resolved column has its
`lastColIndex` set to that column (Go mutates the shared `fieldMeta`). -/
def updatedMeta (m : TypeMeta) (fieldCols : List (Option ℤ)) : TypeMeta :=
  ⟨(m.fields.zip fieldCols).map fun p => { p.1 with lastColIndex := p.2.getD p.1.lastColIndex }⟩

/-- `mapRow` maps a single row (slice of cell values) into a record, returning
the object, the row's errors, and whether it is valid. -/
def mapRow (m : TypeMeta) (fieldCols : List (Option ℤ)) (hm : Option (List (ℤ × GoStr)))
    (validator : Option Validator) (rowIdx logicalIdx : ℤ) (cols : List GoStr) :
    Rec × List RowError × Bool :=
  let pairs := m.fields.zip fieldCols
  let st := pairs.foldl (fieldStep rowIdx logicalIdx hm cols) ⟨[], [], false⟩
  let vp : List RowError × Bool :=
    match validator with
    | none => ([], false)
    | some vf =>
      match vf st.vals with
      | none => ([], false)
      | some (.fieldErrs l) =>
        (valFailures (updatedMeta m fieldCols) rowIdx logicalIdx hm cols l, !l.isEmpty)
      | some (.otherErr msg) =>
        ([⟨rowIdx, logicalIdx, 0, [], [], [], [], .structValidation msg⟩], true)
  let errs := st.errs ++ vp.1
  let hasErr := st.hasErr || vp.2
  if hasErr then (zeroRec m, errs, false) else (st.vals, [], true)

/-! ### Options (src/excelio.go `Options`, `applyDefaults`) -/

/-- The per-row streaming handler (`Options.streamHandler` after the
`OnStreamRow` wrapper): physical row, logical row, the mapped record when the
row was fully valid, the row's errors; a `some` result is a handler error. -/
abbrev StreamHandler := ℤ → ℤ → Option Rec → List RowError → Option GoStr

/-- `Options` control how Excel is read and mapped (sheet selection is part
of the external document collaborator and is omitted: the row source below is
the resolved sheet's row sequence). -/
structure OptionsL where
  headerRow : ℤ := 0
  firstDataRow : ℤ := 0
  rowIndexMapper : Option (ℤ → ℤ → ℤ) := none
  goValidator : Option Validator := none
  errorColumnIndex : ℤ := 0
  streamHandler : Option StreamHandler := none

/-- `applyDefaults` fills in default values for unspecified options. -/
def applyDefaults (o : OptionsL) : OptionsL :=
  let o := if o.headerRow = 0 ∧ o.firstDataRow = 0 then { o with headerRow := 1, firstDataRow := 2 } else o
  if o.headerRow > 0 ∧ o.firstDataRow = 0 then { o with firstDataRow := o.headerRow + 1 } else o

/-! ### Core read/stream (src/excelio.go `parseHeader`, `isRowEmpty`,
`readFromExcelFile`, `streamFromExcelFile`) -/

/-- One physical row as delivered by the document collaborator's iterator:
the ordered cell texts, or a row-read error. -/
abbrev RowRead := Except GoStr (List GoStr)

/-- Loop of `parseHeader`: walk the rows counting from 1; a read error aborts;
reaching `headerRow` yields the `column index → trimmed text` map. -/
def parseHeaderAux : List RowRead → ℤ → ℤ → Except GoStr (List (ℤ × GoStr))
  | [], _, _ => .error "excelio: header row not found".data
  | r :: rest, cur, hr =>
    match r with
    | .error msg => .error msg
    | .ok cols =>
      if cur + 1 = hr then .ok (cols.enum.map fun p => ((p.1 : ℤ), trimSpace p.2))
      else parseHeaderAux rest (cur + 1) hr

/-- `parseHeader` reads the header row and returns a map of column index to
header text. -/
def parseHeader (rows : List RowRead) (hr : ℤ) : Except GoStr (List (ℤ × GoStr)) :=
  parseHeaderAux rows 0 hr

/-- Map-insert with overwrite, modelling assignment into Go's
`map[string]int`. -/
def assocSet (l : List (GoStr × ℕ)) (k : GoStr) (v : ℕ) : List (GoStr × ℕ) :=
  match l with
  | [] => [(k, v)]
  | p :: r => if p.1 = k then (k, v) :: r else p :: assocSet r k v

/-- The header-index construction of `readFromExcelFile`/`streamFromExcelFile`:
lowercased trimmed header text to column index, skipping blanks (Go iterates
the header map in unspecified order; the model iterates in column order). -/
def buildHeaderIndex (hm : List (ℤ × GoStr)) : List (GoStr × ℕ) :=
  hm.foldl
    (fun acc p =>
      let n := toLower (trimSpace p.2)
      if n ≠ [] then assocSet acc n p.1.toNat else acc)
    []

/-- `isRowEmpty` checks whether all cells in a row are empty (after
trimming). -/
def isRowEmpty (cols : List GoStr) : Bool := cols.all fun c => trimSpace c = []

/-- The RowError recorded for a failed `rows.Columns()` call (only the
physical row index and the wrapped error are filled in). -/
def readRowError (i : ℤ) (msg : GoStr) : RowError :=
  ⟨i, 0, 0, [], [], [], [], .readRow msg⟩

/-- Everything the row loops need: metadata, resolved columns, header map,
validator, first data row and row-index mapper. -/
structure RowCtx where
  meta : TypeMeta
  fieldCols : List (Option ℤ)
  headerMap : Option (List (ℤ × GoStr))
  validator : Option Validator
  firstDataRow : ℤ
  rowIndexMapper : Option (ℤ → ℤ → ℤ)

/-- The logical index of the next data row: `dataIdx` or the mapper's value
on (physical row, dataIdx). -/
def logicalIdxOf (ctx : RowCtx) (rowIdx dataIdx : ℤ) : ℤ :=
  match ctx.rowIndexMapper with
  | some f => f rowIdx dataIdx
  | none => dataIdx

/-- The row loop of `readFromExcelFile`: read errors are recorded and skipped,
rows before `FirstDataRow` and blank rows are skipped, every other row is
counted, mapped and its record/errors accumulated in order. -/
def readLoop (ctx : RowCtx) : List RowRead → ℤ → ℤ → List Rec × List RowError
  | [], _, _ => ([], [])
  | r :: rest, i, d =>
    match r with
    | .error msg =>
      let p := readLoop ctx rest (i + 1) d
      (p.1, readRowError (i + 1) msg :: p.2)
    | .ok cols =>
      if i + 1 < ctx.firstDataRow then readLoop ctx rest (i + 1) d
      else if isRowEmpty cols then readLoop ctx rest (i + 1) d
      else
        let L := logicalIdxOf ctx (i + 1) (d + 1)
        let mr := mapRow ctx.meta ctx.fieldCols ctx.headerMap ctx.validator (i + 1) L cols
        let p := readLoop ctx rest (i + 1) (d + 1)
        ((if mr.2.2 then mr.1 :: p.1 else p.1), mr.2.1 ++ p.2)

/-- Builds the row context shared by `readFromExcelFile` and
`streamFromExcelFile`: parse the header row when one is configured, derive the
header index, resolve the field columns. -/
def buildCtx (o : OptionsL) (meta : TypeMeta) (rows : List RowRead) : Except GoStr RowCtx :=
  match (if o.headerRow > 0 then (parseHeader rows o.headerRow).map some else .ok none) with
  | .error e => .error e
  | .ok hm =>
    let hidx := match hm with | some m => buildHeaderIndex m | none => []
    .ok ⟨meta, buildFieldColIndex meta hidx, hm, o.goValidator, o.firstDataRow, o.rowIndexMapper⟩

/-- `readFromExcelFile` implements the core "read everything into slice"
logic over the resolved sheet's row sequence. -/
def readFromExcelFile (o : OptionsL) (meta : TypeMeta) (rows : List RowRead) :
    Except GoStr (List Rec × List RowError) :=
  (buildCtx o meta rows).map fun ctx => readLoop ctx rows 0 0

/-- One invocation of the streaming handler, as observed by the caller:
the arguments the loop passed to it. -/
structure HCall where
  rowIdx : ℤ
  logicalIdx : ℤ
  obj : Option Rec
  errs : List RowError

/-- The handler application for a recorded call. -/
def handlerCall (h : StreamHandler) (c : HCall) : Option GoStr :=
  h c.rowIdx c.logicalIdx c.obj c.errs

/-- The row loop of `streamFromExcelFile`.  The handler is an effectful
callback in Go; the model returns, besides the accumulated errors and the
terminal (handler) error, the trace of handler invocations in order.  A
read-error row is delivered to the handler (logical index −1, absent record)
before the skip checks; a `some` handler result stops the loop. -/
def streamLoop (ctx : RowCtx) (h : StreamHandler) :
    List RowRead → ℤ → ℤ → List RowError × Option GoStr × List HCall
  | [], _, _ => ([], none, [])
  | r :: rest, i, d =>
    match r with
    | .error msg =>
      let re := readRowError (i + 1) msg
      let call : HCall := ⟨i + 1, -1, none, [re]⟩
      match h (i + 1) (-1) none [re] with
      | some he => ([re], some he, [call])
      | none =>
        let p := streamLoop ctx h rest (i + 1) d
        (re :: p.1, p.2.1, call :: p.2.2)
    | .ok cols =>
      if i + 1 < ctx.firstDataRow then streamLoop ctx h rest (i + 1) d
      else if isRowEmpty cols then streamLoop ctx h rest (i + 1) d
      else
        let L := logicalIdxOf ctx (i + 1) (d + 1)
        let mr := mapRow ctx.meta ctx.fieldCols ctx.headerMap ctx.validator (i + 1) L cols
        let objOpt := if mr.2.2 then some mr.1 else none
        let call : HCall := ⟨i + 1, L, objOpt, mr.2.1⟩
        match h (i + 1) L objOpt mr.2.1 with
        | some he => (mr.2.1, some he, [call])
        | none =>
          let p := streamLoop ctx h rest (i + 1) (d + 1)
          (mr.2.1 ++ p.1, p.2.1, call :: p.2.2)

/-- `streamFromExcelFile` implements the core streaming logic using
`Options.streamHandler`; a missing handler is a configuration error. -/
def streamFromExcelFile (o : OptionsL) (meta : TypeMeta) (rows : List RowRead) :
    Except GoStr (List RowError × Option GoStr × List HCall) :=
  match o.streamHandler with
  | none => .error "excelio: WithStreamRead() is required for Stream/StreamFile".data
  | some h =>
    (buildCtx o meta rows).map fun ctx => streamLoop ctx h rows 0 0

/-! ### Error write-back (src/excelio.go `writeErrorsToExcelFile`) -/

/-- The message text of a `GoErr` (`err.Error()`); string payloads are kept
verbatim, surrounding quote punctuation and numeric payload formatting of the
Go messages are elided. -/
def goErrString : GoErr → GoStr
  | .requiredColumnOutOfRange => "required column out of range".data
  | .requiredValueEmpty => "required value is empty".data
  | .numSyntax input => "strconv: parsing ".data ++ input ++ ": invalid syntax".data
  | .invalidBool raw => "invalid bool: ".data ++ raw
  | .emptyTime => "empty time".data
  | .invalidExcelSerial => "invalid excel serial".data
  | .cannotParseTime raw => "cannot parse time: ".data ++ raw
  | .unsupportedKind raw => "unsupported kind for value ".data ++ raw
  | .columnFailed display tag msg =>
    "column ".data ++ display ++ " failed on ".data ++ tag ++ ": ".data ++ msg
  | .structValidation msg => "struct validation error: ".data ++ msg
  | .readRow msg => "read row: ".data ++ msg

/-- Cell contents of the resolved sheet, by (column letter, 1-based row):
a missing cell reads as the empty string (excelize `GetCellValue`). -/
abbrev CellStore := GoStr × ℤ → GoStr

/-- `writeErrorsToExcelFile` writes the provided RowError list into the
sheet's cells: for each error with a positive physical row, append its
message (after a newline when the target cell already has text) to the cell
at (error-column letter, physical row); other errors are skipped.  The
cell-write and persistence steps of the document collaborator are modelled as
always succeeding. -/
def writeErrorsToExcelFile (errs : List RowError) (o : OptionsL) (cells : CellStore) : CellStore :=
  let errColLetter := colLetter (o.errorColumnIndex - 1)
  errs.foldl
    (fun st re =>
      if re.excelRowIndex ≤ 0 then st
      else
        let cell := (errColLetter, re.excelRowIndex)
        let oldVal := st cell
        let msg := goErrString re.err
        let msg := if oldVal ≠ [] then oldVal ++ '\n' :: msg else msg
        fun c => if c = cell then msg else st c)
    cells

/-! ## Verification -/

/-! ### C1: a row yields a record iff it accumulated no Row Errors -/

/-- One field-loop step preserves "the error flag is set iff errors have been
accumulated". -/
theorem fieldStep_invariant (rowIdx logicalIdx : ℤ) (hm : Option (List (ℤ × GoStr)))
    (cols : List GoStr) (st : FieldAcc) (p : FieldMeta × Option ℤ)
    (h : st.hasErr = true ↔ st.errs ≠ []) :
    (fieldStep rowIdx logicalIdx hm cols st p).hasErr = true ↔
      (fieldStep rowIdx logicalIdx hm cols st p).errs ≠ [] := by
  unfold fieldStep
  rcases p with ⟨fm, oc⟩
  cases oc with
  | none => simpa using h
  | some colIdx =>
    dsimp only
    split
    · split <;> simp [h]
    · split
      · split <;> simp [h]
      · split <;> simp [h]

/-- The field loop of `mapRow` preserves the error-flag invariant. -/
theorem fieldLoop_invariant (rowIdx logicalIdx : ℤ) (hm : Option (List (ℤ × GoStr)))
    (cols : List GoStr) (ps : List (FieldMeta × Option ℤ)) (st : FieldAcc)
    (h : st.hasErr = true ↔ st.errs ≠ []) :
    (ps.foldl (fieldStep rowIdx logicalIdx hm cols) st).hasErr = true ↔
      (ps.foldl (fieldStep rowIdx logicalIdx hm cols) st).errs ≠ [] := by
  induction ps generalizing st with
  | nil => simpa using h
  | cons p rest ih =>
    simpa using ih _ (fieldStep_invariant rowIdx logicalIdx hm cols st p h)

/-- The final branch of `mapRow`, analysed for any field-loop state whose
flag tracks its errors and any validator contribution whose flag tracks its
errors. -/
theorem mapRow_final_cases (m : TypeMeta) (st : FieldAcc)
    (hinv : st.hasErr = true ↔ st.errs ≠ [])
    (vp : List RowError × Bool) (hv : vp.2 = true ↔ vp.1 ≠ []) :
    ((if st.hasErr || vp.2 then (zeroRec m, st.errs ++ vp.1, false)
        else (st.vals, ([] : List RowError), true)).2.2 = true ↔
      (if st.hasErr || vp.2 then (zeroRec m, st.errs ++ vp.1, false)
        else (st.vals, ([] : List RowError), true)).2.1 = []) ∧
    ((if st.hasErr || vp.2 then (zeroRec m, st.errs ++ vp.1, false)
        else (st.vals, ([] : List RowError), true)).2.2 = false →
      (if st.hasErr || vp.2 then (zeroRec m, st.errs ++ vp.1, false)
        else (st.vals, ([] : List RowError), true)).2.1 ≠ [] ∧
        (if st.hasErr || vp.2 then (zeroRec m, st.errs ++ vp.1, false)
          else (st.vals, ([] : List RowError), true)).1 = zeroRec m) := by
  by_cases hE : (st.hasErr || vp.2) = true
  · have hor : st.errs ≠ [] ∨ vp.1 ≠ [] := by
      rcases Bool.or_eq_true_iff.mp hE with h | h
      · exact Or.inl (hinv.mp h)
      · exact Or.inr (hv.mp h)
    have hne : st.errs ++ vp.1 ≠ [] := by
      intro hcon
      rcases List.append_eq_nil.mp hcon with ⟨h1, h2⟩
      rcases hor with h | h
      · exact h h1
      · exact h h2
    simp [hE, hne]
  · simp [hE]

/-- C1: for every row, column mapping, type metadata and optional validator,
`mapRow` returns a present (valid-flagged) record iff the row accumulated
zero Row Errors across field conversion and validation; whenever the flag is
cleared the error list is non-empty and the returned record is the discarded
zero record — no call yields both a present record and a non-empty error
list. -/
theorem c1_mapRow_record_iff_no_errors (m : TypeMeta) (fieldCols : List (Option ℤ))
    (hm : Option (List (ℤ × GoStr))) (validator : Option Validator)
    (rowIdx logicalIdx : ℤ) (cols : List GoStr) :
    ((mapRow m fieldCols hm validator rowIdx logicalIdx cols).2.2 = true ↔
      (mapRow m fieldCols hm validator rowIdx logicalIdx cols).2.1 = []) ∧
    ((mapRow m fieldCols hm validator rowIdx logicalIdx cols).2.2 = false →
      (mapRow m fieldCols hm validator rowIdx logicalIdx cols).2.1 ≠ [] ∧
        (mapRow m fieldCols hm validator rowIdx logicalIdx cols).1 = zeroRec m) := by
  have hinv := fieldLoop_invariant rowIdx logicalIdx hm cols (m.fields.zip fieldCols)
    ⟨[], [], false⟩ (by simp)
  cases validator with
  | none =>
    simp only [mapRow]
    exact mapRow_final_cases m _ hinv ([], false) (by simp)
  | some vf =>
    simp only [mapRow]
    cases hout : vf (List.foldl (fieldStep rowIdx logicalIdx hm cols)
        { vals := [], errs := [], hasErr := false } (m.fields.zip fieldCols)).vals with
    | none => exact mapRow_final_cases m _ hinv ([], false) (by simp)
    | some outcome =>
      cases outcome with
      | fieldErrs l =>
        refine mapRow_final_cases m _ hinv
          (valFailures (updatedMeta m fieldCols) rowIdx logicalIdx hm cols l, !l.isEmpty) ?_
        cases l <;> simp [valFailures]
      | otherErr msg =>
        exact mapRow_final_cases m _ hinv
          ([⟨rowIdx, logicalIdx, 0, [], [], [], [], .structValidation msg⟩], true) (by simp)

/-- Witness for C1: a required int field fed the unparsable text "x" yields
an invalid row with a non-empty error list and the discarded zero record. -/
theorem c1_witness :
    (mapRow (getTypeMeta [⟨"N".data, true, [], ['1'], [], ['1'], [], false, .kInt⟩]) [some 0]
        none none 2 1 [['x']]).2.1 ≠ [] ∧
      (mapRow (getTypeMeta [⟨"N".data, true, [], ['1'], [], ['1'], [], false, .kInt⟩]) [some 0]
        none none 2 1 [['x']]).1 =
        zeroRec (getTypeMeta [⟨"N".data, true, [], ['1'], [], ['1'], [], false, .kInt⟩]) :=
  (c1_mapRow_record_iff_no_errors
    (getTypeMeta [⟨"N".data, true, [], ['1'], [], ['1'], [], false, .kInt⟩]) [some 0]
    none none 2 1 [['x']]).2 (by decide)

/-! ### C2: column-resolution precedence (number > letter > header alias) -/

/-- `findSome?` skips a prefix on which the function yields nothing. -/
theorem findSome?_skip {α β : Type} (f : α → Option β) (pre rest : List α)
    (h : ∀ b ∈ pre, f b = none) : (pre ++ rest).findSome? f = rest.findSome? f := by
  induction pre with
  | nil => rfl
  | cons a t ih =>
    rw [List.cons_append, List.findSome?_cons, h a (by simp)]
    exact ih fun b hb => h b (by simp [hb])

/-- C2: for every field descriptor, column resolution follows the fixed
precedence explicit column number > column letter > header alias: a valid
positive `col` tag resolves to that number minus one regardless of letter or
header hints; otherwise a letter tag that converts to a valid index wins over
any header alias; otherwise the first alias found in the header index wins;
a field matching none of the three is omitted (`none`). -/
theorem c2_column_resolution_precedence :
    (∀ (f : GoStructField) (fm : FieldMeta) (hidx : List (GoStr × ℕ)) (n : ℤ),
      buildFieldMeta f = some fm → goAtoi (trimSpace f.colTag) = some n → 0 < n →
      resolveFieldCol hidx fm = some (n - 1)) ∧
    (∀ (fm : FieldMeta) (hidx : List (GoStr × ℕ)),
      fm.colIndexTag < 0 → fm.colLetterTag ≠ [] → 0 ≤ colIndexFromLetter fm.colLetterTag →
      resolveFieldCol hidx fm = some (colIndexFromLetter fm.colLetterTag)) ∧
    (∀ (fm : FieldMeta) (hidx : List (GoStr × ℕ)) (pre post : List GoStr) (nm : GoStr) (k : ℕ),
      fm.colIndexTag < 0 → (fm.colLetterTag = [] ∨ colIndexFromLetter fm.colLetterTag < 0) →
      fm.columnNames = pre ++ nm :: post →
      (∀ b ∈ pre, headerLookup hidx (toLower (trimSpace b)) = none) →
      headerLookup hidx (toLower (trimSpace nm)) = some k →
      resolveFieldCol hidx fm = some (k : ℤ)) ∧
    (∀ (fm : FieldMeta) (hidx : List (GoStr × ℕ)),
      fm.colIndexTag < 0 → (fm.colLetterTag = [] ∨ colIndexFromLetter fm.colLetterTag < 0) →
      headerAliasLookup hidx fm.columnNames = none →
      resolveFieldCol hidx fm = none) := by
  refine ⟨?_, ?_, ?_, ?_⟩
  · intro f fm hidx n hbuild hatoi hn
    unfold buildFieldMeta at hbuild
    split at hbuild
    · exact absurd hbuild (by simp)
    · split at hbuild
      · exact absurd hbuild (by simp)
      · injection hbuild with hfm
        subst hfm
        simp only [resolveFieldCol, hatoi]
        rw [if_pos hn, if_pos (by omega)]
  · intro fm hidx h1 h2 h3
    unfold resolveFieldCol
    rw [if_neg (by omega), if_pos ⟨h2, h3⟩]
  · intro fm hidx pre post nm k h1 h2 hnames hpre hnm
    have hhidx : hidx ≠ [] := by
      intro hcon
      rw [hcon] at hnm
      simp [headerLookup] at hnm
    unfold resolveFieldCol
    rw [if_neg (by omega), if_neg (by rcases h2 with h | h <;> simp [h]),
      if_pos ⟨by simp [hnames], hhidx⟩]
    unfold headerAliasLookup
    rw [hnames, findSome?_skip _ pre _ (fun b hb => by rw [hpre b hb]; rfl),
      List.findSome?_cons, hnm]
    rfl
  · intro fm hidx h1 h2 hlook
    unfold resolveFieldCol
    rw [if_neg (by omega), if_neg (by rcases h2 with h | h <;> simp [h])]
    split
    · exact hlook
    · rfl

/-- Witness for C2: a field whose `col` tag says column 2, whose letter tag
says column C and whose alias matches header column 8 resolves to the
0-based index 1 given by the explicit number. -/
theorem c2_witness :
    resolveFieldCol [("full name".data, 7)]
      ⟨"Name".data, ["Full Name".data], 1, ['C'], false, [], false, .kString, 0⟩ = some 1 := by
  have h := c2_column_resolution_precedence.1
    ⟨"Name".data, true, "Full Name".data, ['2'], ['C'], [], [], false, .kString⟩
    ⟨"Name".data, ["Full Name".data], 1, ['C'], false, [], false, .kString, 0⟩
    [("full name".data, 7)] 2 (by decide) (by decide) (by decide)
  simpa using h

/-! ### C10: `colLetter` and `colIndexFromLetter` are mutually inverse -/

/-- `Char.ofNat` is faithful below 91. -/
theorem char_toNat_ofNat_le90 : ∀ k < 91, (Char.ofNat k).toNat = k := by decide

/-- `colAux` over an append runs the two halves in sequence. -/
theorem colAux_append (xs ys : GoStr) (acc : ℕ) :
    colAux (xs ++ ys) acc = (colAux xs acc).bind fun a => colAux ys a := by
  induction xs generalizing acc with
  | nil => rfl
  | cons c cs ih =>
    rw [List.cons_append, colAux, colAux]
    split
    · exact ih _
    · rfl

/-- Every character `colLetterAux` emits is an uppercase letter. -/
theorem colLetterAux_mem (n : ℕ) : ∀ c ∈ colLetterAux n, 65 ≤ c.toNat ∧ c.toNat ≤ 90 := by
  induction n using Nat.strong_induction_on with
  | _ n ih =>
    match n with
    | 0 => simp [colLetterAux]
    | m + 1 =>
      intro c hc
      rw [colLetterAux] at hc
      rcases List.mem_append.mp hc with h | h
      · exact ih (m / 26) (by omega) c h
      · have hch : (Char.ofNat (65 + m % 26)).toNat = 65 + m % 26 :=
          char_toNat_ofNat_le90 _ (by omega)
        rw [List.mem_singleton] at h
        subst h
        omega

/-- Folding the digits of `colLetterAux n` back recovers `n` (shifted by the
starting accumulator). -/
theorem colAux_colLetterAux (n : ℕ) :
    ∀ acc, colAux (colLetterAux n) acc = some (acc * 26 ^ (colLetterAux n).length + n) := by
  induction n using Nat.strong_induction_on with
  | _ n ih =>
    match n with
    | 0 => intro acc; simp [colLetterAux, colAux]
    | m + 1 =>
      intro acc
      have hch : (Char.ofNat (65 + m % 26)).toNat = 65 + m % 26 :=
        char_toNat_ofNat_le90 _ (by omega)
      rw [colLetterAux, colAux_append, ih (m / 26) (by omega) acc, Option.some_bind,
        colAux, if_pos (by omega), colAux]
      have hlen : (colLetterAux (m / 26) ++ [Char.ofNat (65 + m % 26)]).length =
          (colLetterAux (m / 26)).length + 1 := by simp
      rw [hlen, pow_succ]
      congr 1
      generalize (26 : ℕ) ^ (colLetterAux (m / 26)).length = P
      have : (Char.ofNat (65 + m % 26)).toNat - 64 = m % 26 + 1 := by omega
      rw [this]
      have hdm : 26 * (m / 26) + m % 26 = m := Nat.div_add_mod m 26
      nlinarith [hdm]

/-- `colLetterAux` of a positive number is non-empty. -/
theorem colLetterAux_ne_nil (n : ℕ) (h : n ≠ 0) : colLetterAux n ≠ [] := by
  match n with
  | m + 1 => rw [colLetterAux]; simp

/-- A character whose code is none of the whitespace codes is not Go
whitespace. -/
theorem isGoSpace_false_of (c : Char)
    (h : c.toNat ≠ 32 ∧ c.toNat ≠ 9 ∧ c.toNat ≠ 10 ∧ c.toNat ≠ 11 ∧ c.toNat ≠ 12 ∧
      c.toNat ≠ 13 ∧ c.toNat ≠ 133 ∧ c.toNat ≠ 160) : isGoSpace c = false := by
  cases hc : isGoSpace c
  · rfl
  · exfalso
    unfold isGoSpace at hc
    simp only [Bool.or_eq_true, decide_eq_true_eq] at hc
    rcases hc with ((((((h1 | h1) | h1) | h1) | h1) | h1) | h1) | h1 <;>
      (subst h1; exact absurd h (by decide))

/-- Uppercase letters are not Go whitespace. -/
theorem isGoSpace_of_upper (c : Char) (h1 : 65 ≤ c.toNat) (h2 : c.toNat ≤ 90) :
    isGoSpace c = false := isGoSpace_false_of c (by omega)

/-- `dropWhile` is the identity when no element satisfies the predicate. -/
theorem dropWhile_eq_self_of_all {p : Char → Bool} {l : GoStr}
    (h : ∀ c ∈ l, p c = false) : l.dropWhile p = l := by
  cases l with
  | nil => rfl
  | cons a t => simp [List.dropWhile_cons, h a (by simp)]

/-- `trimSpace` fixes strings with no whitespace characters. -/
theorem trimSpace_eq_self {l : GoStr} (h : ∀ c ∈ l, isGoSpace c = false) : trimSpace l = l := by
  unfold trimSpace
  rw [dropWhile_eq_self_of_all h,
    dropWhile_eq_self_of_all (fun c hc => h c (List.mem_reverse.mp hc)), List.reverse_reverse]

/-- `toUpperChar` fixes characters that are not lowercase letters. -/
theorem toUpperChar_eq_self {c : Char} (h : ¬(97 ≤ c.toNat ∧ c.toNat ≤ 122)) :
    toUpperChar c = c := by
  unfold toUpperChar
  rw [if_neg h]

/-- `toUpper` fixes all-uppercase strings. -/
theorem toUpper_eq_self {l : GoStr} (h : ∀ c ∈ l, c.toNat ≤ 90) : toUpper l = l := by
  induction l with
  | nil => rfl
  | cons a t ih =>
    rw [toUpper, List.map_cons, toUpperChar_eq_self (by have := h a (by simp); omega)]
    exact congrArg _ (ih fun c hc => h c (by simp [hc]))

/-- ASCII case mapping does not change whitespace-ness. -/
theorem isGoSpace_toUpperChar (c : Char) : isGoSpace (toUpperChar c) = isGoSpace c := by
  unfold toUpperChar
  split
  · rename_i h
    have h1 : (Char.ofNat (c.toNat - 32)).toNat = c.toNat - 32 :=
      char_toNat_ofNat_le90 _ (by omega)
    rw [isGoSpace_false_of _ (by omega), isGoSpace_false_of c (by omega)]
  · rfl

/-- `dropWhile isGoSpace` commutes with `toUpper`. -/
theorem dropWhile_toUpper (l : GoStr) :
    (toUpper l).dropWhile isGoSpace = toUpper (l.dropWhile isGoSpace) := by
  induction l with
  | nil => rfl
  | cons a t ih =>
    cases hsp : isGoSpace a with
    | true =>
      simp only [toUpper, List.map_cons, List.dropWhile_cons, isGoSpace_toUpperChar, hsp,
        if_true, reduceIte]
      exact ih
    | false =>
      simp only [toUpper, List.map_cons, List.dropWhile_cons, isGoSpace_toUpperChar, hsp,
        Bool.false_eq_true, if_false, reduceIte]

/-- `trimSpace` commutes with `toUpper`. -/
theorem trimSpace_toUpper (s : GoStr) : trimSpace (toUpper s) = toUpper (trimSpace s) := by
  unfold trimSpace
  rw [dropWhile_toUpper]
  have hrev : ∀ l : GoStr, (toUpper l).reverse = toUpper l.reverse := by
    intro l; simp [toUpper]
  rw [hrev, dropWhile_toUpper, hrev]

/-- The accumulator never decreases along `colAux`. -/
theorem colAux_le {l : GoStr} : ∀ {acc v : ℕ}, colAux l acc = some v → acc ≤ v := by
  induction l with
  | nil =>
    intro acc v h
    rw [colAux] at h
    injection h with h
    omega
  | cons c cs ih =>
    intro acc v h
    rw [colAux] at h
    split at h
    · rename_i hc
      have := ih h
      omega
    · cases h

/-- A non-empty valid letter string folds to a positive value. -/
theorem colAux_pos {c : Char} {cs : GoStr} {v : ℕ} (h : colAux (c :: cs) 0 = some v) : 1 ≤ v := by
  rw [colAux] at h
  split at h
  · rename_i hc
    have := colAux_le h
    omega
  · cases h

/-- On valid letter strings `colAux` succeeds. -/
theorem colAux_isSome {l : GoStr} (h : ∀ c ∈ l, 65 ≤ c.toNat ∧ c.toNat ≤ 90) :
    ∀ acc, (colAux l acc).isSome := by
  induction l with
  | nil => intro acc; rfl
  | cons c cs ih =>
    intro acc
    rw [colAux, if_pos (h c (by simp))]
    exact ih (fun b hb => h b (by simp [hb])) _

/-- An invalid character anywhere makes `colAux` fail. -/
theorem colAux_none {l : GoStr} {c : Char} (hc : c ∈ l)
    (hinv : ¬(65 ≤ c.toNat ∧ c.toNat ≤ 90)) : ∀ acc, colAux l acc = none := by
  induction l with
  | nil => cases hc
  | cons a t ih =>
    intro acc
    rw [colAux]
    split
    · rename_i hval
      rcases List.mem_cons.mp hc with h | h
      · subst h; exact absurd hval hinv
      · exact ih h _
    · rfl

/-- Rebuilding the letters of a folded valid string recovers it. -/
theorem colLetterAux_colAux : ∀ (l : GoStr), (∀ c ∈ l, 65 ≤ c.toNat ∧ c.toNat ≤ 90) →
    ∀ v, colAux l 0 = some v → colLetterAux v = l := by
  intro l
  induction l using List.reverseRecOn with
  | nil =>
    intro _ v h
    rw [colAux] at h
    injection h with h
    rw [← h, colLetterAux]
  | append_singleton xs c ih =>
    intro hval v h
    rw [colAux_append] at h
    cases hx : colAux xs 0 with
    | none => rw [hx] at h; cases h
    | some vx =>
      rw [hx, Option.some_bind, colAux, if_pos (hval c (by simp)), colAux] at h
      injection h with hv
      have hc := hval c (by simp)
      have hv26 : vx * 26 + (c.toNat - 64) = (vx * 26 + (c.toNat - 65)) + 1 := by omega
      rw [← hv, hv26, colLetterAux]
      have hdiv : (vx * 26 + (c.toNat - 65)) / 26 = vx := by omega
      have hmod : (vx * 26 + (c.toNat - 65)) % 26 = c.toNat - 65 := by omega
      rw [hdiv, hmod]
      have hxs : colLetterAux vx = xs := by
        cases xs with
        | nil =>
          rw [colAux] at hx
          injection hx with h0
          rw [← h0, colLetterAux]
        | cons a t => exact ih (fun b hb => hval b (List.mem_append_left _ hb)) vx hx
      rw [hxs]
      have hch : 65 + (c.toNat - 65) = c.toNat := by omega
      rw [hch, Char.ofNat_toNat]

/-- Upper-casing an ASCII letter lands in `A`‥`Z`. -/
theorem toUpperChar_range {c : Char} (h : isAsciiLetter c = true) :
    65 ≤ (toUpperChar c).toNat ∧ (toUpperChar c).toNat ≤ 90 := by
  unfold isAsciiLetter at h
  simp only [Bool.or_eq_true, decide_eq_true_eq] at h
  unfold toUpperChar
  rcases h with h | h
  · rw [if_neg (by omega)]; exact h
  · rw [if_pos h, char_toNat_ofNat_le90 _ (by omega)]; omega

/-- C10 (amended): `colLetter` and `colIndexFromLetter` are mutually inverse
on valid inputs — for every integer i ≥ 0 converting to a letter and back
yields i, and for every string of ASCII letters optionally surrounded by
whitespace converting to an index and back yields its trimmed uppercase
form; `colIndexFromLetter` returns −1 for strings that trim to empty and for
strings whose trimmed content contains a non-letter character. -/
theorem c10_colLetter_colIndexFromLetter_inverse :
    (∀ i : ℤ, 0 ≤ i → colIndexFromLetter (colLetter i) = i) ∧
    (∀ s : GoStr, trimSpace s ≠ [] → (∀ c ∈ trimSpace s, isAsciiLetter c = true) →
      colLetter (colIndexFromLetter s) = toUpper (trimSpace s)) ∧
    (∀ s : GoStr, trimSpace s = [] → colIndexFromLetter s = -1) ∧
    (∀ (s : GoStr) (c : Char), c ∈ trimSpace s → isAsciiLetter c = false →
      colIndexFromLetter s = -1) := by
  refine ⟨?_, ?_, ?_, ?_⟩
  · intro i hi
    unfold colLetter
    rw [if_neg (by omega)]
    have hn : (i + 1).toNat = i.toNat + 1 := by omega
    rw [hn]
    have hmem := colLetterAux_mem (i.toNat + 1)
    simp only [colIndexFromLetter]
    rw [toUpper_eq_self (fun c hc => (hmem c hc).2),
      trimSpace_eq_self (fun c hc => isGoSpace_of_upper c (hmem c hc).1 (hmem c hc).2),
      if_neg (colLetterAux_ne_nil _ (Nat.succ_ne_zero _)), colAux_colLetterAux]
    simp only [zero_mul, zero_add]
    push_cast
    omega
  · intro s hne hletters
    have hs' : trimSpace (toUpper s) = toUpper (trimSpace s) := trimSpace_toUpper s
    have hupmem : ∀ c ∈ toUpper (trimSpace s), 65 ≤ c.toNat ∧ c.toNat ≤ 90 := by
      intro c hc
      rcases List.mem_map.mp hc with ⟨a, ha, rfl⟩
      exact toUpperChar_range (hletters a ha)
    have hne' : toUpper (trimSpace s) ≠ [] := by
      intro hcon
      exact hne (List.map_eq_nil_iff.mp hcon)
    obtain ⟨v, hv⟩ := Option.isSome_iff_exists.mp (colAux_isSome hupmem 0)
    have hv1 : 1 ≤ v := by
      cases ht : toUpper (trimSpace s) with
      | nil => exact absurd ht hne'
      | cons a t => rw [ht] at hv; exact colAux_pos hv
    simp only [colIndexFromLetter]
    rw [hs', if_neg hne', hv]
    show colLetter ((v : ℤ) - 1) = toUpper (trimSpace s)
    unfold colLetter
    rw [if_neg (by omega)]
    have hvn : ((v : ℤ) - 1 + 1).toNat = v := by omega
    rw [hvn]
    exact colLetterAux_colAux _ hupmem v hv
  · intro s h0
    simp only [colIndexFromLetter]
    rw [trimSpace_toUpper, h0]
    rfl
  · intro s c hc hinv
    have hinv' : ¬(65 ≤ c.toNat ∧ c.toNat ≤ 90) ∧ ¬(97 ≤ c.toNat ∧ c.toNat ≤ 122) := by
      unfold isAsciiLetter at hinv
      simp only [Bool.or_eq_false_iff, decide_eq_false_iff_not] at hinv
      exact hinv
    have hupc : toUpperChar c = c := toUpperChar_eq_self hinv'.2
    have hmem : c ∈ toUpper (trimSpace s) := by
      have := List.mem_map_of_mem toUpperChar hc
      rwa [hupc] at this
    simp only [colIndexFromLetter]
    rw [trimSpace_toUpper]
    by_cases h0 : toUpper (trimSpace s) = []
    · rw [if_pos h0]
    · rw [if_neg h0, colAux_none hmem hinv'.1 0]

/-- C10 counterexample: the string " A " contains the non-letter ' ', yet
`colIndexFromLetter` returns 0 (column A), not −1 — refuting the claim's
"returns −1 for any string containing a non-letter character" as stated. -/
theorem c10_counterexample :
    colIndexFromLetter " A ".data = 0 ∧
      (' ' ∈ " A ".data ∧ isAsciiLetter ' ' = false) ∧ (0 : ℤ) ≠ -1 := by decide

/-- Witness for C10: index 27 maps to "AB" and back; " ab " maps to index 27
and back to its trimmed uppercase form "AB". -/
theorem c10_witness :
    colIndexFromLetter (colLetter 27) = 27 ∧
      colLetter (colIndexFromLetter " ab ".data) = "AB".data := by
  constructor
  · exact c10_colLetter_colIndexFromLetter_inverse.1 27 (by decide)
  · have h := c10_colLetter_colIndexFromLetter_inverse.2.1 " ab ".data (by decide) (by decide)
    rw [h]
    decide

/-! ### C4: layered date/time parsing -/

/-- C4 (amended): for every non-blank input, `parseTime` attempts layers in
order with first match winning — (a) the configured custom format, (b)
RFC3339, (c) the fixed layout list `YYYY-MM-DD`, `DD/MM/YYYY`, `DD-MM-YYYY`,
`YYYY/MM/DD` and the `HH:MM` datetime variants of the first three
(`YYYY/MM/DD` has no datetime variant), (d) a floating-point Excel serial
with epoch 1899-12-30, the fractional part converted to rounded
seconds-of-day, serials ≤ 0 rejected; if every layer fails the error carries
the original raw text. -/
theorem c4_parseTime_layers (raw : GoStr) (fm : Option FieldMeta) :
    (goLayouts = ["2006-01-02".data, "02/01/2006".data, "02-01-2006".data, "2006/01/02".data,
      "02/01/2006 15:04".data, "2006-01-02 15:04".data, "02-01-2006 15:04".data]) ∧
    (∀ t : ℤ, trimSpace raw ≠ [] → customParse fm (trimSpace raw) = some t →
      parseTime raw fm = .ok t) ∧
    (∀ t : ℤ, trimSpace raw ≠ [] → customParse fm (trimSpace raw) = none →
      rfc3339Parse (trimSpace raw) = some t → parseTime raw fm = .ok t) ∧
    (∀ t : ℤ, trimSpace raw ≠ [] → customParse fm (trimSpace raw) = none →
      rfc3339Parse (trimSpace raw) = none →
      goLayouts.findSome? (fun layout => goTimeParse layout (trimSpace raw)) = some t →
      parseTime raw fm = .ok t) ∧
    (∀ q : ℚ, trimSpace raw ≠ [] → customParse fm (trimSpace raw) = none →
      rfc3339Parse (trimSpace raw) = none →
      goLayouts.findSome? (fun layout => goTimeParse layout (trimSpace raw)) = none →
      goParseFloat (trimSpace raw) = some q → 0 < q →
      parseTime raw fm = .ok ((daysFromCivil 1899 12 30 + q.floor) * 86400 +
        ((q - (q.floor : ℚ)) * 86400 + 1 / 2).floor)) ∧
    (∀ q : ℚ, q ≤ 0 → excelSerialToTime q = .error .invalidExcelSerial) ∧
    (∀ q : ℚ, trimSpace raw ≠ [] → customParse fm (trimSpace raw) = none →
      rfc3339Parse (trimSpace raw) = none →
      goLayouts.findSome? (fun layout => goTimeParse layout (trimSpace raw)) = none →
      goParseFloat (trimSpace raw) = some q → q ≤ 0 →
      parseTime raw fm = .error (.cannotParseTime raw)) ∧
    (trimSpace raw ≠ [] → customParse fm (trimSpace raw) = none →
      rfc3339Parse (trimSpace raw) = none →
      goLayouts.findSome? (fun layout => goTimeParse layout (trimSpace raw)) = none →
      goParseFloat (trimSpace raw) = none →
      parseTime raw fm = .error (.cannotParseTime raw)) := by
  refine ⟨rfl, ?_, ?_, ?_, ?_, ?_, ?_, ?_⟩
  · intro t hne hc
    simp only [parseTime]
    rw [if_neg hne, hc]
  · intro t hne hc hr
    simp only [parseTime]
    rw [if_neg hne, hc, hr]
  · intro t hne hc hr hl
    simp only [parseTime]
    rw [if_neg hne, hc, hr, hl]
  · intro q hne hc hr hl hf hq
    simp only [parseTime]
    rw [if_neg hne, hc, hr, hl, hf]
    dsimp only
    unfold excelSerialToTime
    rw [if_neg (not_le.mpr hq)]
  · intro q hq
    unfold excelSerialToTime
    rw [if_pos hq]
  · intro q hne hc hr hl hf hq
    simp only [parseTime]
    rw [if_neg hne, hc, hr, hl, hf]
    dsimp only
    unfold excelSerialToTime
    rw [if_pos hq]
  · intro hne hc hr hl hf
    simp only [parseTime]
    rw [if_neg hne, hc, hr, hl, hf]

/-- C4 counterexample: the layout list has no `HH:MM` datetime variant of
`YYYY/MM/DD`, so "2024/01/15 10:30" — which the claimed list would accept —
fails every layer and errors. -/
theorem c4_counterexample :
    "2006/01/02 15:04".data ∉ goLayouts ∧
      parseTime "2024/01/15 10:30".data none =
        .error (.cannotParseTime "2024/01/15 10:30".data) := by
  constructor
  · decide
  · decide

/-- `Rat.floor` agrees with the floor of the `FloorRing` instance. -/
theorem rat_floor_eq_intFloor (q : ℚ) : q.floor = ⌊q⌋ := by
  rw [Rat.floor_def', Rat.floor_def]

/-- Witness for C4: "2024-01-15" parses via the layout list to 2024-01-15
UTC; serial 45000 parses to 2023-03-15 UTC via the 1899-12-30 epoch; "0"
(serial 0) is rejected. -/
theorem c4_witness :
    parseTime "2024-01-15".data none = .ok 1705276800 ∧
      parseTime "45000".data none = .ok 1678838400 ∧
      parseTime "0".data none = .error (.cannotParseTime ['0']) := by
  refine ⟨?_, ?_, ?_⟩
  · exact (c4_parseTime_layers "2024-01-15".data none).2.2.2.1 1705276800
      (by decide) (by decide) (by decide) (by decide)
  · have hf0 : goParseFloat (trimSpace "45000".data) =
        some (1 * (((45000 : ℕ) : ℚ) + ((0 : ℕ) : ℚ) / 10 ^ (0 : ℕ))) := rfl
    have hf : goParseFloat (trimSpace "45000".data) = some 45000 := by
      rw [hf0]; norm_num
    have h := (c4_parseTime_layers "45000".data none).2.2.2.2.1 45000
      (by decide) (by decide) (by decide) (by decide) hf (by norm_num)
    rw [h]
    have h1 : Rat.floor (45000 : ℚ) = 45000 := by
      rw [rat_floor_eq_intFloor, Int.floor_eq_iff]; norm_num
    rw [h1]
    have h2 : ((45000 : ℚ) - ((45000 : ℤ) : ℚ)) * 86400 + 1 / 2 = 1 / 2 := by norm_num
    rw [h2]
    have h3 : Rat.floor ((1 : ℚ) / 2) = 0 := by
      rw [rat_floor_eq_intFloor, Int.floor_eq_iff]; norm_num
    rw [h3]
    have h4 : daysFromCivil 1899 12 30 = -25569 := by decide
    rw [h4]
    norm_num
  · have hf0 : goParseFloat (trimSpace "0".data) =
        some (1 * (((0 : ℕ) : ℚ) + ((0 : ℕ) : ℚ) / 10 ^ (0 : ℕ))) := rfl
    have hf : goParseFloat (trimSpace "0".data) = some 0 := by
      rw [hf0]; norm_num
    exact (c4_parseTime_layers "0".data none).2.2.2.2.2.2.1 0
      (by decide) (by decide) (by decide) (by decide) hf (by norm_num)

/-! ### C3: validator failures on unknown field names -/

/-- C3 (amended): when the configured validator reports a failure whose field
name resolves to no known field, `mapRow` builds the Row Error with the
unresolved internal column −1, so the emitted `RowError` carries the 1-based
`ColIndex` 0 (= −1 + 1) — not −1 — with empty column letter, empty field and
empty value, and the row is still marked invalid. -/
theorem c3_unknown_field_validator_error (m : TypeMeta) (fieldCols : List (Option ℤ))
    (hm : Option (List (ℤ × GoStr))) (fe : FieldError) (rowIdx logicalIdx : ℤ)
    (cols : List GoStr)
    (hunknown : ∀ fm ∈ m.fields, fm.fieldName ≠ fe.structField) :
    (mapRow m fieldCols hm (some fun _ => some (.fieldErrs [fe]))
        rowIdx logicalIdx cols).2.1.getLast? =
      some ⟨rowIdx, logicalIdx, 0, [], [], [], [], .columnFailed fe.fieldAlt fe.tag fe.errMsg⟩ ∧
    (mapRow m fieldCols hm (some fun _ => some (.fieldErrs [fe]))
        rowIdx logicalIdx cols).2.2 = false := by
  have hfind : findFieldByName (updatedMeta m fieldCols) fe.structField = none := by
    unfold findFieldByName updatedMeta
    rw [List.find?_eq_none]
    intro x hx
    rcases List.mem_map.mp hx with ⟨p, hp, rfl⟩
    have hp1 : p.1 ∈ m.fields := (List.of_mem_zip hp).1
    simpa using hunknown p.1 hp1
  have hval : valFailures (updatedMeta m fieldCols) rowIdx logicalIdx hm cols [fe] =
      [⟨rowIdx, logicalIdx, 0, [], [], [], [], .columnFailed fe.fieldAlt fe.tag fe.errMsg⟩] := by
    unfold valFailures
    rw [List.map_cons, List.map_nil, hfind]
    have hc : ¬((0 : ℤ) ≤ -1 ∧ (-1 : ℤ) < (cols.length : ℤ)) := by omega
    unfold buildRowError
    simp only [hc, if_false, reduceIte]
    norm_num
  simp only [mapRow, List.isEmpty_cons, Bool.not_false, Bool.or_true, if_true, hval]
  constructor
  · exact List.getLast?_concat _
  · trivial

/-- C3 counterexample: a validator failure naming the unknown field "Nope"
produces a Row Error whose reported `ColIndex` is 0, not −1 as the claim
states. -/
theorem c3_counterexample :
    ((mapRow ⟨[⟨"Code".data, ["Code".data], -1, [], false, [], false, .kString, 0⟩]⟩ [some 0]
          none
          (some fun _ => some (.fieldErrs [⟨"Nope".data, "Nope".data, "required".data, "msg".data⟩]))
          4 1 [['x']]).2.1.map fun e => e.colIndex) = [0] ∧
      (0 : ℤ) ≠ -1 := by decide

/-- Witness for C3: on a one-field record and a validator failure naming the
unknown field "Nope", the last Row Error is exactly the unresolved-column
error with `ColIndex` 0 and empty letter/field/value. -/
theorem c3_witness :
    (mapRow ⟨[⟨"Code".data, ["Code".data], -1, [], false, [], false, .kString, 0⟩]⟩ [some 0]
        none
        (some fun _ => some (.fieldErrs [⟨"Nope".data, "Nope".data, "required".data, "msg".data⟩]))
        4 1 [['x']]).2.1.getLast? =
      some ⟨4, 1, 0, [], [], [], [], .columnFailed "Nope".data "required".data "msg".data⟩ :=
  (c3_unknown_field_validator_error
    ⟨[⟨"Code".data, ["Code".data], -1, [], false, [], false, .kString, 0⟩]⟩ [some 0] none
    ⟨"Nope".data, "Nope".data, "required".data, "msg".data⟩ 4 1 [['x']] (by decide)).1

/-! ### C8: header-row and first-data-row defaults -/

/-- C8 (amended): when header row and first data row are both unset (0),
`applyDefaults` sets header row 1 and first data row 2, so a header row IS
parsed; no header row is parsed only when the header row is 0 and the first
data row was set explicitly (the options then pass through unchanged, and the
readers run with an empty header index so header matching cannot contribute);
when a header row r > 0 is configured and the first data row is unset, the
first data row defaults to r + 1. -/
theorem c8_default_rows (o : OptionsL) :
    (o.headerRow = 0 → o.firstDataRow = 0 →
      (applyDefaults o).headerRow = 1 ∧ (applyDefaults o).firstDataRow = 2) ∧
    (o.headerRow = 0 → 0 < o.firstDataRow → applyDefaults o = o) ∧
    (0 < o.headerRow → o.firstDataRow = 0 →
      (applyDefaults o).headerRow = o.headerRow ∧
        (applyDefaults o).firstDataRow = o.headerRow + 1) ∧
    (∀ (meta : TypeMeta) (rows : List RowRead), o.headerRow ≤ 0 →
      readFromExcelFile o meta rows =
        .ok (readLoop ⟨meta, buildFieldColIndex meta [], none, o.goValidator,
          o.firstDataRow, o.rowIndexMapper⟩ rows 0 0)) := by
  refine ⟨?_, ?_, ?_, ?_⟩
  · intro h1 h2
    unfold applyDefaults
    rw [if_pos (show o.headerRow = 0 ∧ o.firstDataRow = 0 from ⟨h1, h2⟩)]
    simp
  · intro h1 h2
    unfold applyDefaults
    rw [if_neg (show ¬(o.headerRow = 0 ∧ o.firstDataRow = 0) by omega)]
    rw [if_neg (show ¬(o.headerRow > 0 ∧ o.firstDataRow = 0) by omega)]
  · intro h1 h2
    unfold applyDefaults
    rw [if_neg (show ¬(o.headerRow = 0 ∧ o.firstDataRow = 0) by omega)]
    rw [if_pos (show o.headerRow > 0 ∧ o.firstDataRow = 0 from ⟨h1, h2⟩)]
    simp
  · intro meta rows h
    unfold readFromExcelFile buildCtx
    rw [if_neg (by omega)]
    rfl

/-- C8 counterexample: with header row 0 and first data row unspecified, the
defaults set header row 1 (a header row IS parsed), and header matching does
contribute to column resolution: a field with only an `excel:"Code"` alias is
bound through the parsed header and receives the data value. -/
theorem c8_counterexample :
    (applyDefaults { headerRow := 0, firstDataRow := 0 }).headerRow = 1 ∧
      readFromExcelFile (applyDefaults { headerRow := 0, firstDataRow := 0 })
          (getTypeMeta [⟨"Code".data, true, "Code".data, [], [], [], [], false, .kString⟩])
          [.ok ["Code".data], .ok ["hello".data]] =
        .ok ([[some (.fvStr "hello".data)]], []) := by decide

/-- Witness for C8: header row 3 defaults the first data row to 4; header 0
with explicit first data row 5 passes through unchanged and reads with no
header index. -/
theorem c8_witness :
    (applyDefaults { headerRow := 3 }).firstDataRow = 4 ∧
      applyDefaults { headerRow := 0, firstDataRow := 5 } =
        { headerRow := 0, firstDataRow := 5 } ∧
      readFromExcelFile { headerRow := 0, firstDataRow := 5 } (getTypeMeta []) [] =
        .ok ([], []) := by
  refine ⟨((c8_default_rows { headerRow := 3 }).2.2.1 (by decide) (by decide)).2, ?_, ?_⟩
  · exact (c8_default_rows { headerRow := 0, firstDataRow := 5 }).2.1 rfl (by decide)
  · rw [(c8_default_rows { headerRow := 0, firstDataRow := 5 }).2.2.2 (getTypeMeta []) []
      (by decide)]
    rfl

/-! ### C5: batch iteration — skips, blanks and logical indices -/

/-- C5: in the batch row loop, a readable row before the first data row is
skipped without consuming a logical index; a fully blank row is skipped
without contributing a record, an error, or a logical-index increment; every
remaining row is mapped with logical index `dataIdx + 1` (the sequential
1-based count of non-blank data rows), or the mapper's value on
(physical row, count) when a row-index mapper is configured, and contributes
its record (when valid) and its errors in order. -/
theorem c5_batch_iteration (ctx : RowCtx) (cols : List GoStr) (rest : List RowRead) (i d : ℤ) :
    (i + 1 < ctx.firstDataRow →
      readLoop ctx (.ok cols :: rest) i d = readLoop ctx rest (i + 1) d) ∧
    (isRowEmpty cols = true →
      readLoop ctx (.ok cols :: rest) i d = readLoop ctx rest (i + 1) d) ∧
    (¬ i + 1 < ctx.firstDataRow → isRowEmpty cols = false → ctx.rowIndexMapper = none →
      readLoop ctx (.ok cols :: rest) i d =
        ((if (mapRow ctx.meta ctx.fieldCols ctx.headerMap ctx.validator (i + 1) (d + 1) cols).2.2
            then (mapRow ctx.meta ctx.fieldCols ctx.headerMap ctx.validator (i + 1) (d + 1) cols).1 ::
              (readLoop ctx rest (i + 1) (d + 1)).1
            else (readLoop ctx rest (i + 1) (d + 1)).1),
          (mapRow ctx.meta ctx.fieldCols ctx.headerMap ctx.validator (i + 1) (d + 1) cols).2.1 ++
            (readLoop ctx rest (i + 1) (d + 1)).2)) ∧
    (∀ f : ℤ → ℤ → ℤ, ¬ i + 1 < ctx.firstDataRow → isRowEmpty cols = false →
      ctx.rowIndexMapper = some f →
      readLoop ctx (.ok cols :: rest) i d =
        ((if (mapRow ctx.meta ctx.fieldCols ctx.headerMap ctx.validator (i + 1)
              (f (i + 1) (d + 1)) cols).2.2
            then (mapRow ctx.meta ctx.fieldCols ctx.headerMap ctx.validator (i + 1)
              (f (i + 1) (d + 1)) cols).1 :: (readLoop ctx rest (i + 1) (d + 1)).1
            else (readLoop ctx rest (i + 1) (d + 1)).1),
          (mapRow ctx.meta ctx.fieldCols ctx.headerMap ctx.validator (i + 1)
              (f (i + 1) (d + 1)) cols).2.1 ++ (readLoop ctx rest (i + 1) (d + 1)).2)) := by
  refine ⟨?_, ?_, ?_, ?_⟩
  · intro h
    simp only [readLoop, if_pos h]
  · intro hblank
    by_cases hc : i + 1 < ctx.firstDataRow <;> simp [readLoop, hc, hblank]
  · intro h1 h2 h3
    simp only [readLoop, if_neg h1, h2, Bool.false_eq_true, if_false, logicalIdxOf, h3]
  · intro f h1 h2 h3
    simp only [readLoop, if_neg h1, h2, Bool.false_eq_true, if_false, logicalIdxOf, h3]

/-- Witness for C5: a whitespace-only row between data rows is skipped with
no record, no error and no logical-index change. -/
theorem c5_witness :
    readLoop ⟨⟨[]⟩, [], none, none, 2, none⟩ [.ok [[' ']], .ok [['x']]] 1 0 =
      readLoop ⟨⟨[]⟩, [], none, none, 2, none⟩ [.ok [['x']]] 2 0 :=
  (c5_batch_iteration ⟨⟨[]⟩, [], none, none, 2, none⟩ [[' ']] [.ok [['x']]] 1 0).2.1 (by decide)

/-! ### C6: streaming early termination -/

/-- The three C6 stream-loop invariants for a stopping step: the handler
erred on this call, which becomes the only (hence last) recorded call. -/
theorem c6_stop (h : StreamHandler) (call : HCall) (he : GoStr)
    (hh : handlerCall h call = some he) :
    (call.errs = (([call] : List HCall).map HCall.errs).flatten) ∧
    (∀ e : GoStr, some he = some e ↔
      ∃ c : HCall, ([call] : List HCall).getLast? = some c ∧ handlerCall h c = some e) ∧
    (∀ c ∈ ([call] : List HCall).dropLast, handlerCall h c = none) := by
  refine ⟨by simp, ?_, by simp⟩
  intro e
  constructor
  · intro ht
    exact ⟨call, by simp, by rw [hh]; exact ht⟩
  · rintro ⟨c, hc1, hc2⟩
    simp only [List.getLast?_singleton, Option.some.injEq] at hc1
    subst hc1
    rw [hh] at hc2
    exact hc2

/-- The three C6 stream-loop invariants for a continuing step: the handler
returned nil on this call, and the tail run already satisfies them. -/
theorem c6_cont (h : StreamHandler) (call : HCall)
    (p : List RowError × Option GoStr × List HCall)
    (hh : handlerCall h call = none)
    (ih : (p.1 = (p.2.2.map HCall.errs).flatten) ∧
      (∀ e : GoStr, p.2.1 = some e ↔
        ∃ c : HCall, p.2.2.getLast? = some c ∧ handlerCall h c = some e) ∧
      (∀ c ∈ p.2.2.dropLast, handlerCall h c = none)) :
    (call.errs ++ p.1 = ((call :: p.2.2).map HCall.errs).flatten) ∧
    (∀ e : GoStr, p.2.1 = some e ↔
      ∃ c : HCall, (call :: p.2.2).getLast? = some c ∧ handlerCall h c = some e) ∧
    (∀ c ∈ (call :: p.2.2).dropLast, handlerCall h c = none) := by
  obtain ⟨ih1, ih2, ih3⟩ := ih
  refine ⟨by simp [ih1], ?_, ?_⟩
  · intro e
    cases hl : p.2.2 with
    | nil =>
      constructor
      · intro ht
        rcases (ih2 e).mp ht with ⟨c, hc1, _⟩
        rw [hl] at hc1
        simp at hc1
      · rintro ⟨c, hc1, hc2⟩
        simp only [List.getLast?_singleton, Option.some.injEq] at hc1
        subst hc1
        rw [hh] at hc2
        simp at hc2
    | cons c' t =>
      rw [List.getLast?_cons_cons, ← hl]
      exact ih2 e
  · intro c hc
    cases hl : p.2.2 with
    | nil =>
      rw [hl] at hc
      simp at hc
    | cons c' t =>
      rw [hl, List.dropLast_cons₂] at hc
      rcases List.mem_cons.mp hc with h1 | h1
      · subst h1
        exact hh
      · exact ih3 c (by rw [hl]; exact h1)

/-- C6: in every streaming read, a nil handler return continues iteration and
an error return stops it immediately: the accumulated Row Errors are exactly
those of the delivered calls in order, the run's terminal error is `some e`
iff the last delivered call returned it (so no later row is delivered), and
every delivered call except the last returned nil. -/
theorem c6_stream_early_termination (ctx : RowCtx) (h : StreamHandler) (rows : List RowRead)
    (i d : ℤ) :
    ((streamLoop ctx h rows i d).1 =
      ((streamLoop ctx h rows i d).2.2.map HCall.errs).flatten) ∧
    (∀ e : GoStr, (streamLoop ctx h rows i d).2.1 = some e ↔
      ∃ c : HCall, (streamLoop ctx h rows i d).2.2.getLast? = some c ∧
        handlerCall h c = some e) ∧
    (∀ c ∈ (streamLoop ctx h rows i d).2.2.dropLast, handlerCall h c = none) := by
  induction rows generalizing i d with
  | nil =>
    refine ⟨by simp [streamLoop], fun e => by simp [streamLoop], by simp [streamLoop]⟩
  | cons r rest ih =>
    match r with
    | .error msg =>
      cases hh : h (i + 1) (-1) none [readRowError (i + 1) msg] with
      | some he =>
        simp only [streamLoop, hh]
        exact c6_stop h ⟨i + 1, -1, none, [readRowError (i + 1) msg]⟩ he
          (by rw [handlerCall]; exact hh)
      | none =>
        simp only [streamLoop, hh]
        exact c6_cont h ⟨i + 1, -1, none, [readRowError (i + 1) msg]⟩ _
          (by rw [handlerCall]; exact hh) (ih (i + 1) d)
    | .ok cols =>
      by_cases h1 : i + 1 < ctx.firstDataRow
      · simp only [streamLoop, if_pos h1]
        exact ih (i + 1) d
      · by_cases h2 : isRowEmpty cols = true
        · simp only [streamLoop, if_neg h1, if_pos h2]
          exact ih (i + 1) d
        · simp only [streamLoop, if_neg h1, if_neg h2]
          generalize mapRow ctx.meta ctx.fieldCols ctx.headerMap ctx.validator (i + 1)
            (logicalIdxOf ctx (i + 1) (d + 1)) cols = mr
          split
          · rename_i he hh
            dsimp only
            exact c6_stop h ⟨i + 1, logicalIdxOf ctx (i + 1) (d + 1),
              (if mr.2.2 = true then some mr.1 else none), mr.2.1⟩ he
              (by rw [handlerCall]; exact hh)
          · rename_i hh
            dsimp only
            exact c6_cont h ⟨i + 1, logicalIdxOf ctx (i + 1) (d + 1),
              (if mr.2.2 = true then some mr.1 else none), mr.2.1⟩
              (streamLoop ctx h rest (i + 1) (d + 1))
              (by rw [handlerCall]; exact hh) (ih (i + 1) (d + 1))

/-- Witness for C6: a handler erring at logical row 2 of a 3-row sheet stops
after 2 delivered calls; the terminal error is the handler's and the last
delivered call produced it. -/
theorem c6_witness :
    ∃ c : HCall,
      (streamLoop ⟨⟨[]⟩, [], none, none, 1, none⟩
          (fun _ L _ _ => if 2 ≤ L then some "stop".data else none)
          [.ok [['a']], .ok [['b']], .ok [['c']]] 0 0).2.2.getLast? = some c ∧
        handlerCall (fun _ L _ _ => if 2 ≤ L then some "stop".data else none) c =
          some "stop".data := by
  refine ((c6_stream_early_termination ⟨⟨[]⟩, [], none, none, 1, none⟩
    (fun _ L _ _ => if 2 ≤ L then some "stop".data else none)
    [.ok [['a']], .ok [['b']], .ok [['c']]] 0 0).2.1 "stop".data).mp (by decide)

/-! ### C7: batch and streaming pipelines have the same error semantics -/

/-- Driven by a handler that always continues, the streaming loop accumulates
exactly the batch loop's Row Errors (same errors, same order). -/
theorem streamLoop_nil_handler (ctx : RowCtx) (rows : List RowRead) (i d : ℤ) :
    (streamLoop ctx (fun _ _ _ _ => none) rows i d).1 = (readLoop ctx rows i d).2 := by
  induction rows generalizing i d with
  | nil => rfl
  | cons r rest ih =>
    match r with
    | .error msg =>
      simp only [streamLoop, readLoop]
      rw [ih]
    | .ok cols =>
      by_cases h1 : i + 1 < ctx.firstDataRow
      · simp only [streamLoop, readLoop, if_pos h1]
        exact ih (i + 1) d
      · by_cases h2 : isRowEmpty cols = true
        · simp only [streamLoop, readLoop, if_neg h1, if_pos h2]
          exact ih (i + 1) d
        · simp only [streamLoop, readLoop, if_neg h1, if_neg h2]
          rw [ih]

/-- C7: for every document, record metadata and configuration, the batch
reader and the streaming reader driven with an always-nil handler produce
the same Row Error sequence (same errors, same order, same context), and
they fail on the same setup errors. -/
theorem c7_batch_stream_error_equivalence (o : OptionsL) (meta : TypeMeta)
    (rows : List RowRead) :
    (streamFromExcelFile { o with streamHandler := some fun _ _ _ _ => none } meta rows).map
        (fun r => r.1) =
      (readFromExcelFile o meta rows).map (fun p => p.2) := by
  unfold streamFromExcelFile readFromExcelFile buildCtx
  dsimp only
  cases hhm : (if o.headerRow > 0 then (parseHeader rows o.headerRow).map some
      else .ok (none : Option (List (ℤ × GoStr)))) with
  | error e => rfl
  | ok hm =>
    dsimp only [Except.map]
    rw [streamLoop_nil_handler]

/-- Witness is not required (no hypotheses), but C7 is exercised on a small
concrete sheet: one bad int row between two good rows gives the same single
error through both pipelines. -/
theorem c7_exercise :
    (streamFromExcelFile
        { headerRow := 0, firstDataRow := 1, streamHandler := some fun _ _ _ _ => none }
        (getTypeMeta [⟨"N".data, true, [], ['1'], [], ['1'], [], false, .kInt⟩])
        [.ok [['7']], .ok [['x']], .ok [['8']]]).map (fun r => r.1) =
      (readFromExcelFile { headerRow := 0, firstDataRow := 1 }
        (getTypeMeta [⟨"N".data, true, [], ['1'], [], ['1'], [], false, .kInt⟩])
        [.ok [['7']], .ok [['x']], .ok [['8']]]).map (fun p => p.2) :=
  c7_batch_stream_error_equivalence { headerRow := 0, firstDataRow := 1 }
    (getTypeMeta [⟨"N".data, true, [], ['1'], [], ['1'], [], false, .kInt⟩])
    [.ok [['7']], .ok [['x']], .ok [['8']]]

/-! ### C9: error annotation appends, preserves, and skips -/

/-- C9: the annotator processes the errors in order; an error with a
non-positive physical row is skipped (the cell store is unchanged by it); an
error with a positive physical row targets exactly the cell at
(error-column letter, physical row) — when that cell already holds text the
new message is appended after a newline so prior annotations are preserved,
otherwise the message is written as-is — and no other cell changes. -/
theorem c9_error_writeback (o : OptionsL) (st : CellStore) (e : RowError)
    (rest : List RowError) :
    (e.excelRowIndex ≤ 0 →
      writeErrorsToExcelFile (e :: rest) o st = writeErrorsToExcelFile rest o st) ∧
    (writeErrorsToExcelFile (e :: rest) o st =
      writeErrorsToExcelFile rest o (writeErrorsToExcelFile [e] o st)) ∧
    (0 < e.excelRowIndex →
      writeErrorsToExcelFile [e] o st (colLetter (o.errorColumnIndex - 1), e.excelRowIndex) =
        (if st (colLetter (o.errorColumnIndex - 1), e.excelRowIndex) ≠ [] then
          st (colLetter (o.errorColumnIndex - 1), e.excelRowIndex) ++ '\n' :: goErrString e.err
        else goErrString e.err)) ∧
    (∀ c : GoStr × ℤ, c ≠ (colLetter (o.errorColumnIndex - 1), e.excelRowIndex) →
      writeErrorsToExcelFile [e] o st c = st c) := by
  refine ⟨?_, ?_, ?_, ?_⟩
  · intro h
    simp only [writeErrorsToExcelFile, List.foldl_cons, if_pos h]
  · simp only [writeErrorsToExcelFile, List.foldl_cons, List.foldl_nil]
  · intro h
    simp only [writeErrorsToExcelFile, List.foldl_cons, List.foldl_nil,
      if_neg (not_le.mpr h)]
    rw [if_pos trivial]
  · intro c hc
    simp only [writeErrorsToExcelFile, List.foldl_cons, List.foldl_nil]
    by_cases h : e.excelRowIndex ≤ 0
    · rw [if_pos h]
    · rw [if_neg h, if_neg hc]

/-- `colLetter` of 0-based column index 9 (1-based column 10) is "J". -/
theorem colLetter_ofTen : colLetter ((10 : ℤ) - 1) = ['J'] := by
  unfold colLetter
  rw [if_neg (by omega)]
  show colLetterAux (9 + 1) = ['J']
  rw [colLetterAux]
  show colLetterAux 0 ++ ['J'] = ['J']
  rw [colLetterAux]
  rfl

/-- Witness for C9: with error column 10, an error on physical row 4 appends
its message after a newline to the existing text of cell J4. -/
theorem c9_witness :
    writeErrorsToExcelFile [⟨4, 1, 3, ['C'], [], [], [], .requiredValueEmpty⟩]
        { errorColumnIndex := 10 }
        (fun c => if c = (['J'], 4) then "old".data else []) (['J'], 4) =
      "old".data ++ '\n' :: "required value is empty".data := by
  have h := (c9_error_writeback { errorColumnIndex := 10 }
      (fun c => if c = (['J'], 4) then "old".data else [])
      ⟨4, 1, 3, ['C'], [], [], [], .requiredValueEmpty⟩ []).2.2.1 (by decide)
  dsimp only at h
  rw [colLetter_ofTen] at h
  rw [h]
  decide

end Excelio
